import Mathlib

/-!
Verification of the `finance_api` crate (src/lib.rs) against its
natural-language specification.

The crate defines two traits, `Market` and `Company`, plus two formatting
impls (`Display` and `Debug` for `dyn Company`).  The formatting impls are
the only executable code in the repository; they are embedded below from
the source.  The trait operations have no implementation in the repository
(the crate is a pure interface contract), so they are modelled from the
spec, as marked on each definition.
-/

/-- A `Company` object, observed through its five trait accessors
(`name`, `full_name`, `isin`, `ticker`, `extra_id` in src/lib.rs).
Since the `Company` trait exposes exactly these five pure accessors, an
object satisfying the capability set is modelled by the record of the five
accessor values. -/
structure Company where
  name : String
  full_name : Option String
  isin : String
  ticker : String
  extra_id : Option String
deriving DecidableEq, Repr

/-- The interpreter for a Rust `write!` format string: each `\x7b\x7d`
placeholder consumes the next argument, every other character is copied
verbatim.  Used to embed `write!(f, "\x7b\x7d: \x7b\x7d", ...)` from the
`Display` impl in src/lib.rs. -/
def writeFmt : List Char → List String → String
  | [], _ => ""
  | '\x7b' :: '\x7d' :: rest, a :: args => a ++ writeFmt rest args
  | '\x7b' :: '\x7d' :: rest, [] => writeFmt rest []
  | ch :: rest, args => String.singleton ch ++ writeFmt rest args

/-- The format string `"\x7b\x7d: \x7b\x7d"` of the `Display` impl for
`dyn Company` in src/lib.rs. -/
def displayFmt : List Char := "\x7b\x7d: \x7b\x7d".toList

/-- Embeds `impl fmt::Display for dyn Company` (src/lib.rs lines 144-148):
`write!(f, "\x7b\x7d: \x7b\x7d", self.ticker(), self.name())`. -/
def companyDisplay (c : Company) : String :=
  writeFmt displayFmt [c.ticker, c.name]

/-- Rust `Debug` escaping for the characters escaped by
`char::escape_debug` in the strings appearing here: quote, backslash and
the common control characters. -/
def escapeDebugChar (ch : Char) : String :=
  if ch = '"' then "\\\""
  else if ch = '\\' then "\\\\"
  else if ch = '\n' then "\\n"
  else if ch = '\t' then "\\t"
  else if ch = '\r' then "\\r"
  else String.singleton ch

/-- Rust `Debug` rendering of a string value: double quotes around the
escaped characters. -/
def rustDebugStr (s : String) : String :=
  "\"" ++ String.join (s.toList.map escapeDebugChar) ++ "\""

/-- Rust `Debug` rendering of an `Option<&String>` value: `None`, or
`Some(...)` around the `Debug` rendering of the string. -/
def rustDebugOptStr : Option String → String
  | none => "None"
  | some s => "Some(" ++ rustDebugStr s ++ ")"

/-- The five `.field(...)` calls of `impl fmt::Debug for dyn Company`
(src/lib.rs lines 150-159), in source order: `full_name`, `name`,
`ticker`, `isin`, `extra_id`, each rendered with its own `Debug`. -/
def companyDebugFields (c : Company) : List String :=
  [rustDebugOptStr c.full_name,
   rustDebugStr c.name,
   rustDebugStr c.ticker,
   rustDebugStr c.isin,
   rustDebugOptStr c.extra_id]

/-- The body of a Rust `DebugTuple` rendering (non-alternate mode): the
field renderings separated by `, `. -/
def debugTupleBody : List String → String
  | [] => ""
  | [a] => a
  | a :: rest => a ++ ", " ++ debugTupleBody rest

/-- Embeds `impl fmt::Debug for dyn Company` (src/lib.rs lines 150-159):
`f.debug_tuple("")` with five `.field` calls renders as the parenthesised,
comma-separated sequence of the field renderings (the tuple name is the
empty string). -/
def companyDebug (c : Company) : String :=
  "(" ++ debugTupleBody (companyDebugFields c) ++ ")"

/-- Modelled from the spec: the `Market` trait (src/lib.rs lines 28-91) has
no implementation in the repository.  A conforming Market is modelled by
its observable data: display name, session times, currency code, and the
implementation-owned collection of companies that the query operations
range over. -/
structure Market where
  market_name : String
  open_time : String
  close_time : String
  currency : String
  companies : List Company
deriving Repr

/-- Modelled from the spec: `get_companies` "returns references to every
company in the market, implementation-defined order". -/
def Market.get_companies (M : Market) : List Company :=
  M.companies

/-- Modelled from the spec: `list_tickers` "returns every ticker symbol
currently known to the market", one per company. -/
def Market.list_tickers (M : Market) : List String :=
  M.companies.map (fun c => c.ticker)

/-- Modelled from the spec: `stock_by_ticker` "performs exact,
case-sensitive, full-string equality against each company's ticker",
returning the matching company or `None`. -/
def Market.stock_by_ticker (M : Market) (t : String) : Option Company :=
  M.companies.find? (fun c => c.ticker == t)

/-- Modelled from the spec: `stock_by_name` interprets its argument as a
search pattern against each company's display name; the matching semantics
(regular expression, substring, case sensitivity) are implementation
defined, so the model is parametrised by the match predicate.  It returns
`None` when zero companies match and the non-empty list of all matching
companies otherwise. -/
def Market.stock_by_name (M : Market) (pmatch : String → String → Bool)
    (pat : String) : Option (List Company) :=
  let hits := M.companies.filter (fun c => pmatch pat c.name)
  if hits.isEmpty then none else some hits

/-- Modelled from the spec: "within one Market, ticker values across its
Companies are unique" — the invariant conforming implementations must
maintain. -/
@[reducible] def Market.TickersUnique (M : Market) : Prop :=
  (M.companies.map (fun c => c.ticker)).Nodup

/-- The operations of the `Market` trait, with their arguments
(src/lib.rs lines 28-91). -/
inductive MarketOp where
  | market_name
  | list_tickers
  | stock_by_name (pmatch : String → String → Bool) (pat : String)
  | stock_by_ticker (t : String)
  | open_time
  | close_time
  | currency
  | get_companies

/-- The operations of the `Company` trait (src/lib.rs lines 109-142). -/
inductive CompanyOp where
  | name
  | full_name
  | isin
  | ticker
  | extra_id

/-- The possible results of a contract operation. -/
inductive OpResult where
  | text (s : String)
  | textList (l : List String)
  | companyList (l : List Company)
  | optCompanyList (r : Option (List Company))
  | optCompany (r : Option Company)
  | optText (r : Option String)
deriving Repr

/-- Whether a result is the "absent" outcome of an optional-returning
operation. -/
def OpResult.isAbsent : OpResult → Bool
  | .optCompany none => true
  | .optCompanyList none => true
  | .optText none => true
  | _ => false

/-- Running one `Market` trait operation as a state transformer on the
market.  Every method of the trait takes `&self` (a shared, read-only
borrow), which the embedding renders by threading the market state through
unchanged while producing the observation. -/
def runMarketOp : MarketOp → Market → OpResult × Market
  | .market_name, M => (.text M.market_name, M)
  | .list_tickers, M => (.textList M.list_tickers, M)
  | .stock_by_name pmatch pat, M => (.optCompanyList (M.stock_by_name pmatch pat), M)
  | .stock_by_ticker t, M => (.optCompany (M.stock_by_ticker t), M)
  | .open_time, M => (.text M.open_time, M)
  | .close_time, M => (.text M.close_time, M)
  | .currency, M => (.text M.currency, M)
  | .get_companies, M => (.companyList M.get_companies, M)

/-- Running one `Company` trait operation as a state transformer on the
company; every accessor takes `&self`. -/
def runCompanyOp : CompanyOp → Company → OpResult × Company
  | .name, c => (.text c.name, c)
  | .full_name, c => (.optText c.full_name, c)
  | .isin, c => (.text c.isin, c)
  | .ticker, c => (.text c.ticker, c)
  | .extra_id, c => (.optText c.extra_id, c)

/-- The BBVA example company of the spec (ticker `BBVA`, short name
`Banco Bilbao Vizcaya Argentaria`; the remaining fields are arbitrary). -/
def bbva : Company :=
  { name := "Banco Bilbao Vizcaya Argentaria"
    full_name := some "Banco Bilbao Vizcaya Argentaria, S.A."
    isin := "ES0113211835"
    ticker := "BBVA"
    extra_id := some "A48265169" }

/-- The Inditex example company of the spec: both optional fields absent. -/
def inditex : Company :=
  { name := "Inditex"
    full_name := none
    isin := "ES0148396007"
    ticker := "ITX"
    extra_id := none }

/-- A three-company mock market with tickers `AAA`, `AAB`, `ZZZ`, as in the
round-trip scenario of the spec. -/
def companyAAA : Company :=
  { name := "Alpha One", full_name := none, isin := "XS0000000001"
    ticker := "AAA", extra_id := none }

def companyAAB : Company :=
  { name := "Alpha Two", full_name := some "Alpha Two Holdings"
    isin := "XS0000000002", ticker := "AAB", extra_id := none }

def companyZZZ : Company :=
  { name := "Zeta", full_name := none, isin := "XS0000000003"
    ticker := "ZZZ", extra_id := some "Z-99" }

def mockMarket : Market :=
  { market_name := "MOCK"
    open_time := "08:00"
    close_time := "16:30"
    currency := "EUR"
    companies := [companyAAA, companyAAB, companyZZZ] }

/-- An empty mock market. -/
def emptyMarket : Market :=
  { market_name := "EMPTY"
    open_time := "08:00"
    close_time := "16:30"
    currency := "EUR"
    companies := [] }

lemma writeFmt_nil (args : List String) : writeFmt [] args = "" := rfl

lemma writeFmt_ph (rest : List Char) (a : String) (args : List String) :
    writeFmt ('\x7b' :: '\x7d' :: rest) (a :: args) = a ++ writeFmt rest args := rfl

lemma writeFmt_colon (rest : List Char) (args : List String) :
    writeFmt (':' :: rest) args = String.singleton ':' ++ writeFmt rest args := rfl

lemma writeFmt_space (rest : List Char) (args : List String) :
    writeFmt (' ' :: rest) args = String.singleton ' ' ++ writeFmt rest args := rfl

lemma writeFmt_display (t n : String) :
    writeFmt displayFmt [t, n] = t ++ ": " ++ n := by
  show writeFmt ('\x7b' :: '\x7d' :: ':' :: ' ' :: '\x7b' :: '\x7d' :: []) [t, n]
      = t ++ ": " ++ n
  rw [writeFmt_ph, writeFmt_colon, writeFmt_space, writeFmt_ph, writeFmt_nil]
  apply String.ext
  simp [String.singleton]

/-- C1: the Display rendering of any Company is exactly the ticker, the
literal separator `: `, then the short name; in particular the BBVA
example renders as `BBVA: Banco Bilbao Vizcaya Argentaria`. -/
theorem display_is_ticker_colon_name :
    (∀ c : Company, companyDisplay c = c.ticker ++ ": " ++ c.name) ∧
    companyDisplay bbva = "BBVA: Banco Bilbao Vizcaya Argentaria" :=
  ⟨fun c => writeFmt_display c.ticker c.name, rfl⟩

/-- C2: the Debug rendering of any Company is the unlabeled tuple of the
five field values in the fixed order `(full_name, name, ticker, isin,
extra_id)`, with the optional fields rendered as `None` / `Some(...)`; in
particular the Inditex example with both optional fields absent renders as
`(None, "Inditex", "ITX", "ES0148396007", None)`. -/
theorem debug_field_order :
    (∀ c : Company,
      companyDebug c =
        "(" ++ rustDebugOptStr c.full_name ++ ", " ++ rustDebugStr c.name ++ ", " ++
          rustDebugStr c.ticker ++ ", " ++ rustDebugStr c.isin ++ ", " ++
          rustDebugOptStr c.extra_id ++ ")") ∧
    rustDebugOptStr none = "None" ∧
    companyDebug inditex = "(None, \"Inditex\", \"ITX\", \"ES0148396007\", None)" := by
  refine ⟨fun c => ?_, rfl, rfl⟩
  apply String.ext
  simp [companyDebug, companyDebugFields, debugTupleBody]

lemma find_ticker_unique (l : List Company) (t : String) (c : Company)
    (hnd : (l.map fun x => x.ticker).Nodup) (hc : c ∈ l) (ht : c.ticker = t) :
    l.find? (fun x => x.ticker == t) = some c := by
  induction l with
  | nil => cases hc
  | cons h tl ih =>
    rw [List.map_cons, List.nodup_cons] at hnd
    rcases List.mem_cons.mp hc with rfl | hmem
    · exact List.find?_cons_of_pos _ (by simp [ht])
    · have hne : ¬(h.ticker == t) = true := by
        simp only [beq_iff_eq]
        intro he
        exact hnd.1 (he ▸ ht ▸ List.mem_map_of_mem _ hmem)
      rw [List.find?_cons_of_neg (p := fun x => x.ticker == t) tl hne]
      exact ih hnd.2 hmem

/-- C3: `stock_by_ticker` is exact full-string matching: it returns `none`
when no company's ticker equals the query exactly, and under the ticker
uniqueness invariant it returns exactly the company whose ticker equals the
query; on the mock market with tickers `AAA`, `AAB`, `ZZZ`, the query
`AAB` returns the second company and the partial query `AA` returns
`none`. -/
theorem stock_by_ticker_exact :
    (∀ (M : Market) (t : String),
        (∀ c ∈ M.companies, c.ticker ≠ t) → M.stock_by_ticker t = none) ∧
    (∀ (M : Market) (t : String) (c : Company), M.TickersUnique →
        c ∈ M.companies → c.ticker = t → M.stock_by_ticker t = some c) ∧
    mockMarket.stock_by_ticker "AAB" = some companyAAB ∧
    mockMarket.stock_by_ticker "AA" = none := by
  refine ⟨?_, ?_, by decide, by decide⟩
  · intro M t h
    rw [Market.stock_by_ticker, List.find?_eq_none]
    intro c hc
    simp [h c hc]
  · intro M t c hu hc ht
    exact find_ticker_unique M.companies t c hu hc ht

theorem stock_by_ticker_exact_witness :
    mockMarket.stock_by_ticker "AAA" = some companyAAA ∧
    emptyMarket.stock_by_ticker "AAA" = none :=
  ⟨stock_by_ticker_exact.2.1 mockMarket "AAA" companyAAA (by decide) (by decide) rfl,
   stock_by_ticker_exact.1 emptyMarket "AAA" (by simp [emptyMarket])⟩

/-- C4: `stock_by_name` returns `none` exactly when zero companies match
the pattern, and every present result is a non-empty list, for any
implementation-defined match predicate. -/
lemma stock_by_name_eq (M : Market) (pm : String → String → Bool) (pat : String) :
    M.stock_by_name pm pat =
      if (M.companies.filter fun c => pm pat c.name) = [] then none
      else some (M.companies.filter fun c => pm pat c.name) := by
  rw [Market.stock_by_name]
  by_cases h : (M.companies.filter fun c => pm pat c.name) = []
  · simp [h]
  · simp [h, List.isEmpty_eq_false.mpr h]

theorem stock_by_name_absent_iff :
    ∀ (M : Market) (pm : String → String → Bool) (pat : String),
      (M.stock_by_name pm pat = none ↔ ∀ c ∈ M.companies, pm pat c.name = false) ∧
      (∀ l, M.stock_by_name pm pat = some l → l ≠ []) := by
  intro M pm pat
  rw [stock_by_name_eq]
  by_cases h : (M.companies.filter fun c => pm pat c.name) = []
  · rw [if_pos h]
    rw [List.filter_eq_nil_iff] at h
    refine ⟨iff_of_true rfl fun c hc => by simpa using h c hc, ?_⟩
    intro l hl
    exact Option.noConfusion hl
  · rw [if_neg h]
    constructor
    · constructor
      · intro habs
        exact Option.noConfusion habs
      · intro hall
        exact absurd (List.filter_eq_nil_iff.mpr fun c hc => by simp [hall c hc]) h
    · intro l hl
      exact (Option.some.inj hl) ▸ h

theorem stock_by_name_absent_witness :
    emptyMarket.stock_by_name (fun pat n => pat == n) "Inditex" = none ∧
    [companyAAA] ≠ ([] : List Company) :=
  ⟨(stock_by_name_absent_iff emptyMarket (fun pat n => pat == n) "Inditex").1.mpr
      (by simp [emptyMarket]),
   (stock_by_name_absent_iff mockMarket (fun pat n => pat == n) "Alpha One").2
      [companyAAA] (by decide)⟩

/-- C5: when a pattern matches a company, `stock_by_name` returns a
present list that contains that company — every match is included, none
omitted, for any implementation-defined match predicate. -/
theorem stock_by_name_all_matches :
    ∀ (M : Market) (pm : String → String → Bool) (pat : String) (c : Company),
      c ∈ M.companies → pm pat c.name = true →
      ∃ l, M.stock_by_name pm pat = some l ∧ c ∈ l := by
  intro M pm pat c hc hp
  have hmem : c ∈ M.companies.filter fun x => pm pat x.name :=
    List.mem_filter.mpr ⟨hc, hp⟩
  have hne : (M.companies.filter fun x => pm pat x.name) ≠ [] :=
    List.ne_nil_of_mem hmem
  exact ⟨_, by rw [stock_by_name_eq]; simp [hne], hmem⟩

theorem stock_by_name_all_matches_witness :
    ∃ l, mockMarket.stock_by_name (fun _ _ => true) "Alpha" = some l ∧ companyAAB ∈ l :=
  stock_by_name_all_matches mockMarket (fun _ _ => true) "Alpha" companyAAB
    (by decide) rfl

/-- C6: `list_tickers` has the same length as `get_companies`, and its
elements, as a set, are exactly the tickers of those companies. -/
theorem list_tickers_matches_companies :
    ∀ M : Market,
      M.list_tickers.length = M.get_companies.length ∧
      ∀ t, t ∈ M.list_tickers ↔ ∃ c ∈ M.get_companies, c.ticker = t := by
  intro M
  refine ⟨by simp [Market.list_tickers, Market.get_companies], fun t => ?_⟩
  simp [Market.list_tickers, Market.get_companies, List.mem_map]

/-- C7: a market with no companies yields an empty `list_tickers` (and an
empty `get_companies`), and an absent result can only come from the two
lookup operations on a market or the two optional accessors on a company
— every other contract operation is total with no failure mode. -/
theorem total_ops_no_failure :
    (∀ M : Market, M.companies = [] → M.list_tickers = [] ∧ M.get_companies = []) ∧
    (∀ (op : MarketOp) (M : Market),
        (runMarketOp op M).1.isAbsent = true →
        (∃ pm pat, op = MarketOp.stock_by_name pm pat) ∨
        (∃ t, op = MarketOp.stock_by_ticker t)) ∧
    (∀ (cop : CompanyOp) (c : Company),
        (runCompanyOp cop c).1.isAbsent = true →
        cop = CompanyOp.full_name ∨ cop = CompanyOp.extra_id) := by
  refine ⟨?_, ?_, ?_⟩
  · intro M h
    simp [Market.list_tickers, Market.get_companies, h]
  · intro op M h
    cases op with
    | stock_by_name pm pat => exact Or.inl ⟨pm, pat, rfl⟩
    | stock_by_ticker t => exact Or.inr ⟨t, rfl⟩
    | market_name => simp [runMarketOp, OpResult.isAbsent] at h
    | list_tickers => simp [runMarketOp, OpResult.isAbsent] at h
    | open_time => simp [runMarketOp, OpResult.isAbsent] at h
    | close_time => simp [runMarketOp, OpResult.isAbsent] at h
    | currency => simp [runMarketOp, OpResult.isAbsent] at h
    | get_companies => simp [runMarketOp, OpResult.isAbsent] at h
  · intro cop c h
    cases cop with
    | full_name => exact Or.inl rfl
    | extra_id => exact Or.inr rfl
    | name => simp [runCompanyOp, OpResult.isAbsent] at h
    | isin => simp [runCompanyOp, OpResult.isAbsent] at h
    | ticker => simp [runCompanyOp, OpResult.isAbsent] at h

theorem total_ops_no_failure_witness :
    (emptyMarket.list_tickers = [] ∧ emptyMarket.get_companies = []) ∧
    ((∃ pm pat, MarketOp.stock_by_ticker "X" = MarketOp.stock_by_name pm pat) ∨
      (∃ t, MarketOp.stock_by_ticker "X" = MarketOp.stock_by_ticker t)) ∧
    (CompanyOp.full_name = CompanyOp.full_name ∨
      CompanyOp.full_name = CompanyOp.extra_id) :=
  ⟨total_ops_no_failure.1 emptyMarket rfl,
   total_ops_no_failure.2.1 (MarketOp.stock_by_ticker "X") emptyMarket rfl,
   total_ops_no_failure.2.2 CompanyOp.full_name inditex rfl⟩

/-- C8: every contract operation, run as a state transformer derived from
its `&self` (shared, read-only borrow) signature, leaves the market — and
hence every company it owns — and the company unchanged: the contract is
strictly observational. -/
theorem contract_is_readonly :
    (∀ (op : MarketOp) (M : Market), (runMarketOp op M).2 = M) ∧
    (∀ (cop : CompanyOp) (c : Company), (runCompanyOp cop c).2 = c) := by
  constructor
  · intro op M
    cases op <;> rfl
  · intro cop c
    cases cop <;> rfl

/-- C9: under the ticker-uniqueness invariant, any two companies of a
market sharing a ticker are the same company, and `stock_by_ticker`
returns exactly the unique company bearing the queried ticker — the
invariant makes the exact-match lookup well-defined. -/
theorem ticker_uniqueness_determinism :
    ∀ M : Market, M.TickersUnique →
      (∀ c₁ ∈ M.companies, ∀ c₂ ∈ M.companies,
          c₁.ticker = c₂.ticker → c₁ = c₂) ∧
      (∀ (t : String) (c : Company), c ∈ M.companies → c.ticker = t →
          M.stock_by_ticker t = some c) := by
  intro M hu
  constructor
  · intro c₁ h₁ c₂ h₂ ht
    exact List.inj_on_of_nodup_map hu h₁ h₂ ht
  · intro t c hc ht
    exact find_ticker_unique M.companies t c hu hc ht

theorem ticker_uniqueness_witness :
    mockMarket.stock_by_ticker "ZZZ" = some companyZZZ :=
  (ticker_uniqueness_determinism mockMarket (by decide)).2 "ZZZ" companyZZZ
    (by decide) rfl

/-- C10: the Display rendering depends only on the ticker and the short
name: two companies agreeing on those two accessors render identically,
whatever their `full_name`, `isin` and `extra_id` values. -/
theorem display_depends_only_on_ticker_name :
    ∀ c₁ c₂ : Company, c₁.ticker = c₂.ticker → c₁.name = c₂.name →
      companyDisplay c₁ = companyDisplay c₂ := by
  intro c₁ c₂ ht hn
  rw [companyDisplay, companyDisplay, ht, hn]

theorem display_depends_only_witness :
    companyDisplay
      { name := "Banco Bilbao Vizcaya Argentaria", full_name := none,
        isin := "XX0000000000", ticker := "BBVA", extra_id := none } =
      companyDisplay bbva :=
  display_depends_only_on_ticker_name _ bbva rfl rfl
